import Mathlib

/-!
Verification of the AT2 decomposed process state machine
(src/at2/decomposed_at2.rs) against its specification.

The embedding mirrors the Rust source: `Dot`/`VClock` follow the semantics of
the crdts crate (`inc` returns the next dot without mutating, `apply` records a
dot by taking the per-actor maximum), `Proc` carries the two clocks, the
pending-validation queue and the peer set, and each Rust method becomes a Lean
function of the same name.  Rust methods taking `&mut self` become
`Proc → ... → Proc` (paired with the returned commands where the Rust method
returns `Vec<Cmd>`); methods taking `&self` return only their result, which
makes their freedom from state mutation a fact of the embedding's types.
Rust `assert!`s (which panic, aborting the process) are modelled as
hypotheses of the theorems about the asserting function and as guards of the
step relation for reachable states.
-/

namespace AT2

/-- Actor / process / account identifier (opaque in the source). -/
abbrev Identity := Nat

/-- Monetary amount used by the ledger collaborator. -/
abbrev Money := Int

/-- A version stamp: the `counter`-th operation emitted by `actor`
(`Dot<Identity>` from the crdts crate). -/
structure Dot where
  actor : Identity
  counter : Nat
deriving DecidableEq

/-- Vector clock over identities: highest counter seen per actor, absent
entries read as 0 (`VClock<Identity>` from the crdts crate). -/
abbrev VClock := Identity → Nat

/-- `VClock::new()`: the empty clock. -/
def VClock.new : VClock := fun _ => 0

/-- `VClock::inc(actor)`: the next dot for `actor`; does not mutate the clock. -/
def VClock.inc (c : VClock) (a : Identity) : Dot := ⟨a, c a + 1⟩

/-- `VClock::dot(actor)`: the current dot for `actor`. -/
def VClock.dot (c : VClock) (a : Identity) : Dot := ⟨a, c a⟩

/-- `CmRDT::apply` on a `VClock`: record a dot by taking the per-actor max. -/
def VClock.apply (c : VClock) (d : Dot) : VClock :=
  fun a => if a = d.actor then max (c a) d.counter else c a

/-- Modelled from the spec: the `Transfer` operation constructed by the ledger
collaborator (src/at2/bank.rs is not under src/), "move `amount` from `frm`
to `to`"; opaque beyond what validation needs (§3 of the spec). -/
structure Transfer where
  frm : Identity
  dest : Identity
  amount : Money
deriving DecidableEq

/-- Modelled from the spec: the state of the external ledger collaborator
(src/at2/bank.rs is not under src/).  It owns, per account, the balance the
account was opened with and the current balance (§6 of the spec). -/
structure Bank where
  owner : Identity
  initialBal : Identity → Money
  bal : Identity → Money

/-- Modelled from the spec: `Bank::new(id)` — a fresh ledger with no accounts. -/
def Bank.new (id : Identity) : Bank :=
  { owner := id, initialBal := fun _ => 0, bal := fun _ => 0 }

/-- Modelled from the spec: `onboard_account` opens an account with the given
initial balance. -/
def Bank.onboard_account (b : Bank) (id : Identity) (initial_balance : Money) : Bank :=
  { b with
    initialBal := fun a => if a = id then initial_balance else b.initialBal a
    bal := fun a => if a = id then initial_balance else b.bal a }

/-- Modelled from the spec: `initial_balance` returns the balance an account
was opened with (not the current balance). -/
def Bank.initial_balance (b : Bank) (id : Identity) : Money :=
  b.initialBal id

/-- Modelled from the spec: `transfer` constructs a transfer object if locally
well-formed (sufficient recorded balance at construction time), else refuses. -/
def Bank.transfer (b : Bank) (frm dest : Identity) (amount : Money) : Option Transfer :=
  if 0 ≤ amount ∧ amount ≤ b.bal frm then some ⟨frm, dest, amount⟩ else none

/-- Modelled from the spec: `read` returns the current balance. -/
def Bank.read (b : Bank) (account : Identity) : Money :=
  b.bal account

/-- Modelled from the spec: `validate` is the ledger's fiscal/structural
validity check against current ledger state (it owns overdraft logic). -/
def Bank.validate (b : Bank) (sender : Identity) (t : Transfer) : Bool :=
  decide (sender = t.frm) && decide (0 ≤ t.amount) && decide (t.amount ≤ b.bal t.frm)

/-- Modelled from the spec: `apply` moves the amount between the two balances;
infallible once validated. -/
def Bank.apply (b : Bank) (t : Transfer) : Bank :=
  let afterSub : Identity → Money := fun a => if a = t.frm then b.bal a - t.amount else b.bal a
  { b with bal := fun a => if a = t.dest then afterSub a + t.amount else afterSub a }

/-- `Msg`: a transfer paired with the version stamp of its author at emission. -/
structure Msg where
  op : Transfer
  source_version : Dot
deriving DecidableEq

/-- `Cmd`: outbound commands a protocol step asks its environment to perform. -/
inductive Cmd where
  | BroadcastNewPeer (new_peer : Identity) (initial_balance : Money)
  | BroadcastMsg (frm : Identity) (msg : Msg)
deriving DecidableEq

/-- `Proc`: the per-process protocol state.  `recv` embeds the Rust field
`rec` (received-knowledge clock), renamed because `rec` is reserved for
recursors in Lean; `seq` is the applied-knowledge clock.  The Rust `HashSet`
of peers is a list queried only through membership. -/
structure Proc where
  id : Identity
  bank : Bank
  seq : VClock
  recv : VClock
  to_validate : List (Identity × Msg)
  peers : List Identity

/-- `Proc::new`: fresh process with empty clocks and queue; onboards its own
account with the initial balance. -/
def Proc.new (id : Identity) (initial_balance : Money) : Proc :=
  { id := id
    bank := (Bank.new id).onboard_account id initial_balance
    seq := VClock.new
    recv := VClock.new
    to_validate := []
    peers := [] }

/-- `Proc::onboard`: commands a newly created process broadcasts. -/
def Proc.onboard (p : Proc) : List Cmd :=
  [Cmd.BroadcastNewPeer p.id (p.bank.initial_balance p.id)]

/-- `Proc::transfer` (`initiateTransfer`): construct a transfer via the ledger
and stamp it with the next applied-knowledge counter.  Takes `&self` in Rust,
so it can change no process state; its `assert_eq!(from, self.id)` is a
hypothesis of the theorems below. -/
def Proc.transfer (p : Proc) (frm dest : Identity) (amount : Money) : List Cmd :=
  match p.bank.transfer frm dest amount with
  | some t => [Cmd.BroadcastMsg frm { op := t, source_version := p.seq.inc frm }]
  | none => []

/-- `Proc::read`: pass-through to the ledger balance. -/
def Proc.read (p : Proc) (account : Identity) : Money :=
  p.bank.read account

/-- `Proc::on_delivery`: causal admission.  Accept iff the stamp is exactly the
next expected dot of the received-knowledge clock; on accept merge it and
enqueue, on reject leave the state unchanged (the Rust branch only logs).
Its `assert_eq!(from, msg.source_version.actor)` is a hypothesis/step guard. -/
def Proc.on_delivery (p : Proc) (frm : Identity) (msg : Msg) : Proc :=
  if msg.source_version = p.recv.inc frm then
    { p with
      recv := p.recv.apply msg.source_version
      to_validate := p.to_validate ++ [(frm, msg)] }
  else p

/-- `Proc::validate`: the validation gate (called `valid` at its call sites in
the source). -/
def Proc.validate (p : Proc) (frm : Identity) (msg : Msg) : Bool :=
  if frm ≠ msg.source_version.actor then false
  else if msg.source_version ≠ p.seq.inc frm then false
  else p.bank.validate frm msg.op

/-- `Proc::on_validated`: merge the stamp into the applied-knowledge clock and
apply the transfer to the ledger.  Its two `assert!`s (validity and that the
stamp is `seq.inc from`) are hypotheses of the theorems below; at its only
call site they are guaranteed by the `validate` guard. -/
def Proc.on_validated (p : Proc) (frm : Identity) (msg : Msg) : Proc :=
  { p with
    seq := p.seq.apply msg.source_version
    bank := p.bank.apply msg.op }

/-- `Proc::handle_new_peer`: register an unknown peer, onboard its account and
re-announce this process; known peers are a no-op with no commands. -/
def Proc.handle_new_peer (p : Proc) (new_proc : Identity) (initial_balance : Money) :
    Proc × List Cmd :=
  if new_proc ∈ p.peers then (p, [])
  else
    let bank' := p.bank.onboard_account new_proc initial_balance
    ({ p with peers := new_proc :: p.peers, bank := bank' },
      [Cmd.BroadcastNewPeer p.id (bank'.initial_balance p.id)])

/-- The `for` loop of `Proc::process_msg_queue`: over the taken queue in order,
apply a message via `on_validated` when `validate` holds, else drop it. -/
def Proc.drain : Proc → List (Identity × Msg) → Proc
  | p, [] => p
  | p, (sender, msg) :: rest =>
    if p.validate sender msg then Proc.drain (p.on_validated sender msg) rest
    else Proc.drain p rest

/-- `Proc::process_msg_queue`: take the whole pending-validation queue
(`mem::replace` resets it to empty), then run the single-pass loop. -/
def Proc.process_msg_queue (p : Proc) : Proc :=
  Proc.drain { p with to_validate := [] } p.to_validate

/-- `Proc::handle_msg`: `on_delivery` then `process_msg_queue`; returns no
commands. -/
def Proc.handle_msg (p : Proc) (frm : Identity) (msg : Msg) : Proc × List Cmd :=
  (((p.on_delivery frm msg).process_msg_queue), [])

/-- One public operation on a process.  `transfer`, `onboard` and `read` take
`&self` in Rust, so their step leaves the state unchanged; the guards are the
`assert`s of the corresponding Rust methods (a violated assert panics, so no
successor state exists). -/
inductive Step : Proc → Proc → Prop
  | handleMsg (p : Proc) (frm : Identity) (msg : Msg)
      (hwf : frm = msg.source_version.actor) :
      Step p (p.handle_msg frm msg).1
  | handleNewPeer (p : Proc) (new_proc : Identity) (initial_balance : Money) :
      Step p (p.handle_new_peer new_proc initial_balance).1
  | transfer (p : Proc) (frm dest : Identity) (amount : Money) (hid : frm = p.id) :
      Step p p
  | onboard (p : Proc) : Step p p
  | read (p : Proc) (account : Identity) : Step p p

/-- States reachable from construction through the public operations. -/
inductive Reachable : Proc → Prop
  | init (id : Identity) (initial_balance : Money) :
      Reachable (Proc.new id initial_balance)
  | step {p q : Proc} : Reachable p → Step p q → Reachable q

/-- An input event fed to a process by its environment: an inbound message
(`handle_msg`) or a new-peer announcement (`handle_new_peer`). -/
inductive Event where
  | msg (frm : Identity) (m : Msg)
  | newPeer (id : Identity) (initial_balance : Money)

/-- An event is well formed when a message's claimed sender matches the actor
of its stamp (otherwise the Rust `assert` in `on_delivery` panics). -/
def Event.wf : Event → Bool
  | .msg frm m => frm = m.source_version.actor
  | .newPeer _ _ => true

/-- Run a sequence of input events through a process. -/
def runEvents : Proc → List Event → Proc
  | p, [] => p
  | p, Event.msg frm m :: rest => runEvents (p.handle_msg frm m).1 rest
  | p, Event.newPeer np b :: rest => runEvents (p.handle_new_peer np b).1 rest

/-- The counters of the messages authored by `A` that the process accepts
(admits at `on_delivery`) along a run, in order of acceptance. -/
def acceptedFrom (A : Identity) : Proc → List Event → List Nat
  | _, [] => []
  | p, Event.msg frm m :: rest =>
    (if frm = A ∧ m.source_version = p.recv.inc frm then [m.source_version.counter] else [])
      ++ acceptedFrom A (p.handle_msg frm m).1 rest
  | p, Event.newPeer np b :: rest => acceptedFrom A (p.handle_new_peer np b).1 rest

/-- The spec-level invariant threaded through reachability: the
received-knowledge clock dominates the applied-knowledge clock pointwise, and
the pending-validation queue is empty between operations. -/
def Inv (p : Proc) : Prop :=
  (∀ a, p.seq a ≤ p.recv a) ∧ p.to_validate = []

theorem validate_eq_true (p : Proc) (frm : Identity) (msg : Msg) :
    p.validate frm msg = true ↔
      frm = msg.source_version.actor ∧ msg.source_version = p.seq.inc frm ∧
        p.bank.validate frm msg.op = true := by
  unfold Proc.validate
  split_ifs with h1 h2
  · simp only [Bool.false_eq_true, false_iff]
    rintro ⟨hc, -, -⟩
    exact h1 hc
  · simp only [Bool.false_eq_true, false_iff]
    rintro ⟨-, hc, -⟩
    exact h2 hc
  · rw [not_not] at h1 h2
    exact ⟨fun hb => ⟨h1, h2, hb⟩, fun h => h.2.2⟩

theorem on_validated_recv (p : Proc) (frm : Identity) (msg : Msg) :
    (p.on_validated frm msg).recv = p.recv := rfl

theorem on_validated_to_validate (p : Proc) (frm : Identity) (msg : Msg) :
    (p.on_validated frm msg).to_validate = p.to_validate := rfl

theorem drain_to_validate (l : List (Identity × Msg)) :
    ∀ p : Proc, (Proc.drain p l).to_validate = p.to_validate := by
  induction l with
  | nil => intro p; rfl
  | cons e rest ih =>
    intro p
    obtain ⟨s, m⟩ := e
    unfold Proc.drain
    split
    · rw [ih]
      exact on_validated_to_validate p s m
    · exact ih p

theorem drain_recv (l : List (Identity × Msg)) :
    ∀ p : Proc, (Proc.drain p l).recv = p.recv := by
  induction l with
  | nil => intro p; rfl
  | cons e rest ih =>
    intro p
    obtain ⟨s, m⟩ := e
    unfold Proc.drain
    split
    · rw [ih]
      exact on_validated_recv p s m
    · exact ih p

theorem drain_dominance (l : List (Identity × Msg)) :
    ∀ p : Proc, (∀ a, p.seq a ≤ p.recv a) →
      (∀ e ∈ l, e.2.source_version.counter ≤ p.recv e.2.source_version.actor) →
      ∀ a, (Proc.drain p l).seq a ≤ (Proc.drain p l).recv a := by
  induction l with
  | nil => intro p h1 _ a; exact h1 a
  | cons e rest ih =>
    intro p h1 h2 a
    obtain ⟨s, m⟩ := e
    unfold Proc.drain
    split
    case isTrue hv =>
      obtain ⟨hact, hsv, _⟩ := (validate_eq_true p s m).1 hv
      apply ih
      · intro b
        rw [on_validated_recv]
        show p.seq.apply m.source_version b ≤ p.recv b
        have hcnt : m.source_version.counter ≤ p.recv m.source_version.actor :=
          h2 (s, m) (List.mem_cons_self _ _)
        rw [hsv] at hcnt ⊢
        simp only [VClock.apply, VClock.inc] at hcnt ⊢
        split
        case isTrue hb => subst hb; exact max_le (h1 b) hcnt
        case isFalse hb => exact h1 b
      · intro e' he'
        rw [on_validated_recv]
        exact h2 e' (List.mem_cons_of_mem _ he')
    case isFalse =>
      exact ih p h1 (fun e' he' => h2 e' (List.mem_cons_of_mem _ he')) a

theorem on_delivery_seq (p : Proc) (frm : Identity) (msg : Msg) :
    (p.on_delivery frm msg).seq = p.seq := by
  unfold Proc.on_delivery
  split <;> rfl

theorem on_delivery_recv_le (p : Proc) (frm : Identity) (msg : Msg) (a : Identity) :
    p.recv a ≤ (p.on_delivery frm msg).recv a := by
  unfold Proc.on_delivery
  split
  · show p.recv a ≤ p.recv.apply msg.source_version a
    simp only [VClock.apply]
    split
    · exact le_max_left _ _
    · exact le_refl _
  · exact le_refl _

theorem on_delivery_queue_bound (p : Proc) (frm : Identity) (msg : Msg)
    (hq : p.to_validate = []) :
    ∀ e ∈ (p.on_delivery frm msg).to_validate,
      e.2.source_version.counter ≤ (p.on_delivery frm msg).recv e.2.source_version.actor := by
  unfold Proc.on_delivery
  split
  case isTrue h =>
    intro e he
    simp only [hq, List.nil_append, List.mem_singleton] at he
    subst he
    show msg.source_version.counter ≤ p.recv.apply msg.source_version msg.source_version.actor
    simp only [VClock.apply, if_pos rfl]
    exact le_max_right _ _
  case isFalse h =>
    intro e he
    rw [hq] at he
    exact absurd he (List.not_mem_nil e)

theorem handle_new_peer_frame (p : Proc) (np : Identity) (b : Money) :
    (p.handle_new_peer np b).1.seq = p.seq ∧ (p.handle_new_peer np b).1.recv = p.recv ∧
      (p.handle_new_peer np b).1.to_validate = p.to_validate ∧
      (p.handle_new_peer np b).1.id = p.id := by
  unfold Proc.handle_new_peer
  split <;> exact ⟨rfl, rfl, rfl, rfl⟩

theorem handle_msg_inv (p : Proc) (frm : Identity) (msg : Msg) (h : Inv p) :
    Inv (p.handle_msg frm msg).1 := by
  obtain ⟨h1, h2⟩ := h
  constructor
  · intro a
    show (Proc.drain { p.on_delivery frm msg with to_validate := [] }
        (p.on_delivery frm msg).to_validate).seq a ≤
      (Proc.drain { p.on_delivery frm msg with to_validate := [] }
        (p.on_delivery frm msg).to_validate).recv a
    apply drain_dominance
    · intro b
      show (p.on_delivery frm msg).seq b ≤ (p.on_delivery frm msg).recv b
      rw [on_delivery_seq]
      exact le_trans (h1 b) (on_delivery_recv_le p frm msg b)
    · intro e he
      exact on_delivery_queue_bound p frm msg h2 e he
  · show (Proc.drain { p.on_delivery frm msg with to_validate := [] }
        (p.on_delivery frm msg).to_validate).to_validate = []
    rw [drain_to_validate]

theorem process_msg_queue_recv (p : Proc) : (p.process_msg_queue).recv = p.recv := by
  unfold Proc.process_msg_queue
  rw [drain_recv]

theorem handle_msg_recv (p : Proc) (frm : Identity) (msg : Msg) :
    (p.handle_msg frm msg).1.recv = (p.on_delivery frm msg).recv := by
  unfold Proc.handle_msg
  exact process_msg_queue_recv _

theorem on_delivery_recv_accept (p : Proc) (frm : Identity) (msg : Msg)
    (h : msg.source_version = p.recv.inc frm) (a : Identity) :
    (p.on_delivery frm msg).recv a = if a = frm then p.recv frm + 1 else p.recv a := by
  unfold Proc.on_delivery
  rw [if_pos h]
  show p.recv.apply msg.source_version a = _
  rw [h]
  simp only [VClock.apply, VClock.inc]
  split
  · rename_i hb
    subst hb
    exact Nat.max_eq_right (Nat.le_succ _)
  · rfl

theorem on_delivery_reject (p : Proc) (frm : Identity) (msg : Msg)
    (h : msg.source_version ≠ p.recv.inc frm) :
    p.on_delivery frm msg = p := by
  unfold Proc.on_delivery
  rw [if_neg h]

theorem runEvents_recv_le (A : Identity) (evs : List Event) :
    ∀ p : Proc, p.recv A ≤ (runEvents p evs).recv A := by
  induction evs with
  | nil => intro p; exact le_refl _
  | cons e rest ih =>
    intro p
    cases e with
    | msg frm m =>
      show p.recv A ≤ (runEvents (p.handle_msg frm m).1 rest).recv A
      refine le_trans ?_ (ih _)
      rw [handle_msg_recv]
      exact on_delivery_recv_le p frm m A
    | newPeer np b =>
      show p.recv A ≤ (runEvents (p.handle_new_peer np b).1 rest).recv A
      refine le_trans ?_ (ih _)
      rw [(handle_new_peer_frame p np b).2.1]

theorem acceptedFrom_eq_range (A : Identity) (evs : List Event) :
    ∀ p : Proc,
      acceptedFrom A p evs =
        List.range' (p.recv A + 1) ((runEvents p evs).recv A - p.recv A) := by
  induction evs with
  | nil =>
    intro p
    show ([] : List Nat) = List.range' (p.recv A + 1) (p.recv A - p.recv A)
    rw [Nat.sub_self]
    rfl
  | cons e rest ih =>
    intro p
    cases e with
    | msg frm m =>
      show (if frm = A ∧ m.source_version = p.recv.inc frm then [m.source_version.counter]
            else []) ++ acceptedFrom A (p.handle_msg frm m).1 rest =
        List.range' (p.recv A + 1) ((runEvents (p.handle_msg frm m).1 rest).recv A - p.recv A)
      by_cases hc : frm = A ∧ m.source_version = p.recv.inc frm
      · obtain ⟨hA, hsv⟩ := hc
        subst hA
        rw [if_pos ⟨rfl, hsv⟩, ih]
        have hq : (p.handle_msg frm m).1.recv frm = p.recv frm + 1 := by
          rw [handle_msg_recv, on_delivery_recv_accept p frm m hsv, if_pos rfl]
        have hmono : (p.handle_msg frm m).1.recv frm ≤
            (runEvents (p.handle_msg frm m).1 rest).recv frm := runEvents_recv_le _ _ _
        rw [hq] at hmono
        have hcnt : m.source_version.counter = p.recv frm + 1 := by rw [hsv]; rfl
        rw [hcnt, hq]
        have harith : (runEvents (p.handle_msg frm m).1 rest).recv frm - p.recv frm =
            ((runEvents (p.handle_msg frm m).1 rest).recv frm - (p.recv frm + 1)) + 1 := by
          omega
        rw [harith, List.range'_succ]
        rfl
      · rw [if_neg hc, List.nil_append, ih]
        have hq : (p.handle_msg frm m).1.recv A = p.recv A := by
          rw [handle_msg_recv]
          by_cases hacc : m.source_version = p.recv.inc frm
          · rw [on_delivery_recv_accept p frm m hacc]
            have hne : A ≠ frm := by
              intro he
              exact hc ⟨he.symm, hacc⟩
            rw [if_neg hne]
          · rw [on_delivery_reject p frm m hacc]
        rw [hq]
    | newPeer np b =>
      show acceptedFrom A (p.handle_new_peer np b).1 rest =
        List.range' (p.recv A + 1) ((runEvents (p.handle_new_peer np b).1 rest).recv A - p.recv A)
      rw [ih, (handle_new_peer_frame p np b).2.1]

theorem reachable_inv {p : Proc} (h : Reachable p) : Inv p := by
  induction h with
  | init id b => exact ⟨fun a => le_refl 0, rfl⟩
  | step _ hs ih =>
    cases hs with
    | handleMsg frm msg hwf => exact handle_msg_inv _ frm msg ih
    | handleNewPeer np b =>
      obtain ⟨e1, e2, e3, -⟩ := handle_new_peer_frame _ np b
      exact ⟨fun a => by rw [e1, e2]; exact ih.1 a, by rw [e3]; exact ih.2⟩
    | transfer frm dest amount hid => exact ih
    | onboard => exact ih
    | read account => exact ih

theorem drain_eq_foldl (l : List (Identity × Msg)) :
    ∀ p : Proc, Proc.drain p l =
      l.foldl (fun s e => if s.validate e.1 e.2 then s.on_validated e.1 e.2 else s) p := by
  induction l with
  | nil => intro p; rfl
  | cons e rest ih =>
    intro p
    obtain ⟨s, m⟩ := e
    unfold Proc.drain
    rw [List.foldl_cons]
    split
    case isTrue h => rw [ih]
    case isFalse h => rw [ih]

/-- Claim C1: in every state reachable through the public operations
(construction, onboard, initiateTransfer, handleMsg, handleNewPeer, read),
the received-knowledge clock dominates the applied-knowledge clock pointwise. -/
theorem claim1_received_dominates_applied (p : Proc) (h : Reachable p) (a : Identity) :
    p.seq a ≤ p.recv a :=
  (reachable_inv h).1 a

/-- Witness for C1 at the state reached by handling one message. -/
theorem claim1_witness :
    ((Proc.new 0 100).handle_msg 1 { op := ⟨1, 0, 5⟩, source_version := ⟨1, 1⟩ }).1.seq 1 ≤
      ((Proc.new 0 100).handle_msg 1 { op := ⟨1, 0, 5⟩, source_version := ⟨1, 1⟩ }).1.recv 1 :=
  claim1_received_dominates_applied _
    (Reachable.step (Reachable.init 0 100)
      (Step.handleMsg _ 1 { op := ⟨1, 0, 5⟩, source_version := ⟨1, 1⟩ } rfl)) 1

/-- Claim C2: with the sender matching the stamp's actor, on_delivery accepts
exactly when the stamp is the received-knowledge clock's next expected stamp
for the sender; on accept it merges the stamp into the received-knowledge
clock and appends the message to the pending-validation queue, on reject it
leaves the entire state unchanged. -/
theorem claim2_on_delivery_admission (p : Proc) (frm : Identity) (msg : Msg)
    (hwf : frm = msg.source_version.actor) :
    (msg.source_version = ⟨frm, p.recv frm + 1⟩ →
      p.on_delivery frm msg =
        { p with
          recv := p.recv.apply msg.source_version
          to_validate := p.to_validate ++ [(frm, msg)] }) ∧
    (msg.source_version ≠ ⟨frm, p.recv frm + 1⟩ → p.on_delivery frm msg = p) := by
  constructor
  · intro h
    unfold Proc.on_delivery
    rw [if_pos (show msg.source_version = p.recv.inc frm from h)]
  · intro h
    exact on_delivery_reject p frm msg h

/-- Witness for C2: one accepted and one rejected delivery on a fresh state. -/
theorem claim2_witness :
    (Proc.new 0 10).on_delivery 1 { op := ⟨1, 0, 3⟩, source_version := ⟨1, 1⟩ } =
      { Proc.new 0 10 with
        recv := (Proc.new 0 10).recv.apply ⟨1, 1⟩
        to_validate := [(1, { op := ⟨1, 0, 3⟩, source_version := ⟨1, 1⟩ })] } ∧
    (Proc.new 0 10).on_delivery 1 { op := ⟨1, 0, 3⟩, source_version := ⟨1, 2⟩ } =
      Proc.new 0 10 :=
  ⟨(claim2_on_delivery_admission (Proc.new 0 10) 1
      { op := ⟨1, 0, 3⟩, source_version := ⟨1, 1⟩ } rfl).1 rfl,
    (claim2_on_delivery_admission (Proc.new 0 10) 1
      { op := ⟨1, 0, 3⟩, source_version := ⟨1, 2⟩ } rfl).2 (by decide)⟩

/-- Claim C3: process_msg_queue first resets the pending-validation queue to
empty, then makes a single in-order pass over the taken queue, applying each
message via on_validated when validate holds and dropping it otherwise; the
queue is empty when it returns. -/
theorem claim3_process_msg_queue_single_pass (p : Proc) :
    p.process_msg_queue =
      p.to_validate.foldl
        (fun s e => if s.validate e.1 e.2 then s.on_validated e.1 e.2 else s)
        { p with to_validate := [] } ∧
    p.process_msg_queue.to_validate = [] := by
  constructor
  · unfold Proc.process_msg_queue
    exact drain_eq_foldl _ _
  · unfold Proc.process_msg_queue
    rw [drain_to_validate]

/-- Claim C4: a successful on_validated call for a message authored by the
sender increments that sender's applied-knowledge entry by exactly one and
changes no other entry, while on_delivery and handle_new_peer never modify
the applied-knowledge clock (initiateTransfer and read borrow the state
immutably, so in this embedding they return no state at all). -/
theorem claim4_applied_clock_increment (p : Proc) (frm : Identity) (msg : Msg)
    (hval : p.validate frm msg = true) :
    (p.on_validated frm msg).seq frm = p.seq frm + 1 ∧
    (∀ a, a ≠ frm → (p.on_validated frm msg).seq a = p.seq a) ∧
    (∀ q : Proc, ∀ f m, (Proc.on_delivery q f m).seq = q.seq) ∧
    (∀ q : Proc, ∀ np b, (Proc.handle_new_peer q np b).1.seq = q.seq) := by
  obtain ⟨hact, hsv, -⟩ := (validate_eq_true p frm msg).1 hval
  refine ⟨?_, ?_, on_delivery_seq, fun q np b => (handle_new_peer_frame q np b).1⟩
  · show p.seq.apply msg.source_version frm = p.seq frm + 1
    rw [hsv]
    simp only [VClock.apply, VClock.inc, if_pos rfl]
    exact Nat.max_eq_right (Nat.le_succ _)
  · intro a ha
    show p.seq.apply msg.source_version a = p.seq a
    rw [hsv]
    simp only [VClock.apply, VClock.inc]
    rw [if_neg ha]

/-- Witness for C4: applying the first valid self-message on a fresh state. -/
theorem claim4_witness :
    ((Proc.new 0 100).on_validated 0 { op := ⟨0, 1, 5⟩, source_version := ⟨0, 1⟩ }).seq 0 =
      (Proc.new 0 100).seq 0 + 1 :=
  (claim4_applied_clock_increment (Proc.new 0 100) 0
    { op := ⟨0, 1, 5⟩, source_version := ⟨0, 1⟩ } (by decide)).1

/-- Claim C5: over any sequence of public operations on a fresh process, the
counters of the messages accepted from an actor A form exactly the list
1, 2, ..., k in order — the k-th message of A is admitted only after
1..(k-1), in order — and a further message from A whose counter is not the
next expected one is rejected, leaving the state unchanged. -/
theorem claim5_sequential_admission (id A : Identity) (b : Money) (evs : List Event)
    (hwf : ∀ e ∈ evs, e.wf = true) :
    acceptedFrom A (Proc.new id b) evs =
      List.range' 1 (acceptedFrom A (Proc.new id b) evs).length ∧
    (∀ m : Msg, m.source_version.actor = A →
      m.source_version.counter ≠ (runEvents (Proc.new id b) evs).recv A + 1 →
      (runEvents (Proc.new id b) evs).on_delivery A m = runEvents (Proc.new id b) evs) := by
  constructor
  · rw [acceptedFrom_eq_range, List.length_range']
    have h0 : (Proc.new id b).recv A = 0 := rfl
    rw [h0]
  · intro m hA hc
    apply on_delivery_reject
    intro he
    apply hc
    rw [he]
    rfl

/-- Witness for C5: a run with a rejected gap, two accepted messages and a
peer announcement. -/
theorem claim5_witness :
    acceptedFrom 1 (Proc.new 0 100)
        [Event.msg 1 { op := ⟨1, 0, 5⟩, source_version := ⟨1, 2⟩ },
         Event.msg 1 { op := ⟨1, 0, 5⟩, source_version := ⟨1, 1⟩ },
         Event.newPeer 1 50,
         Event.msg 1 { op := ⟨1, 0, 7⟩, source_version := ⟨1, 2⟩ }] =
      List.range' 1 (acceptedFrom 1 (Proc.new 0 100)
        [Event.msg 1 { op := ⟨1, 0, 5⟩, source_version := ⟨1, 2⟩ },
         Event.msg 1 { op := ⟨1, 0, 5⟩, source_version := ⟨1, 1⟩ },
         Event.newPeer 1 50,
         Event.msg 1 { op := ⟨1, 0, 7⟩, source_version := ⟨1, 2⟩ }]).length :=
  (claim5_sequential_admission 0 1 100 _ (by decide)).1

/-- Claim C6: validate is a pure predicate (it borrows the state immutably, so
in this embedding it is a plain function to Bool): it returns false when the
sender differs from the stamp's actor, false when the stamp is not the
applied-knowledge clock's next expected stamp for the sender, and otherwise
returns exactly the ledger collaborator's verdict on the transfer. -/
theorem claim6_validate_characterization (p : Proc) (frm : Identity) (msg : Msg) :
    (frm ≠ msg.source_version.actor → p.validate frm msg = false) ∧
    (msg.source_version ≠ ⟨frm, p.seq frm + 1⟩ → p.validate frm msg = false) ∧
    (frm = msg.source_version.actor → msg.source_version = ⟨frm, p.seq frm + 1⟩ →
      p.validate frm msg = p.bank.validate frm msg.op) := by
  refine ⟨?_, ?_, ?_⟩
  · intro h
    unfold Proc.validate
    rw [if_pos h]
  · intro h
    unfold Proc.validate
    split_ifs with h1 h2
    · rfl
    · rfl
    · exact absurd (not_not.mp h2) h
  · intro h1 h2
    unfold Proc.validate
    rw [if_neg (not_not.mpr h1),
      if_neg (not_not.mpr (show msg.source_version = p.seq.inc frm from h2))]

/-- Witness for C6: all three cases of the validation gate on a fresh state. -/
theorem claim6_witness :
    (Proc.new 0 10).validate 2 { op := ⟨1, 0, 3⟩, source_version := ⟨1, 1⟩ } = false ∧
    (Proc.new 0 10).validate 1 { op := ⟨1, 0, 3⟩, source_version := ⟨1, 2⟩ } = false ∧
    (Proc.new 0 10).validate 1 { op := ⟨1, 0, 3⟩, source_version := ⟨1, 1⟩ } =
      (Proc.new 0 10).bank.validate 1 ⟨1, 0, 3⟩ :=
  ⟨(claim6_validate_characterization (Proc.new 0 10) 2
      { op := ⟨1, 0, 3⟩, source_version := ⟨1, 1⟩ }).1 (by decide),
    (claim6_validate_characterization (Proc.new 0 10) 1
      { op := ⟨1, 0, 3⟩, source_version := ⟨1, 2⟩ }).2.1 (by decide),
    (claim6_validate_characterization (Proc.new 0 10) 1
      { op := ⟨1, 0, 3⟩, source_version := ⟨1, 1⟩ }).2.2 (by decide) (by decide)⟩

/-- Claim C7: initiateTransfer for the process's own identity changes no local
state (it borrows the state immutably, so the embedding returns only the
commands): when the ledger refuses to construct the transfer it returns no
command, and on success it returns exactly one BroadcastMsg stamped with the
applied-knowledge clock's next counter for the issuer, and that stamp is not
merged into any clock. -/
theorem claim7_transfer_frame (p : Proc) (frm dest : Identity) (amount : Money)
    (hid : frm = p.id) :
    (p.bank.transfer frm dest amount = none → p.transfer frm dest amount = []) ∧
    (∀ t, p.bank.transfer frm dest amount = some t →
      p.transfer frm dest amount =
        [Cmd.BroadcastMsg frm { op := t, source_version := ⟨frm, p.seq frm + 1⟩ }]) := by
  constructor
  · intro h
    unfold Proc.transfer
    rw [h]
  · intro t h
    unfold Proc.transfer
    rw [h]
    rfl

/-- Witness for C7: a refused and a constructed transfer on a fresh state. -/
theorem claim7_witness :
    (Proc.new 0 100).transfer 0 1 (-5) = [] ∧
    (Proc.new 0 100).transfer 0 1 30 =
      [Cmd.BroadcastMsg 0 { op := ⟨0, 1, 30⟩, source_version := ⟨0, 1⟩ }] :=
  ⟨(claim7_transfer_frame (Proc.new 0 100) 0 1 (-5) rfl).1 (by decide),
    (claim7_transfer_frame (Proc.new 0 100) 0 1 30 rfl).2 ⟨0, 1, 30⟩ (by decide)⟩

/-- Claim C8: handleNewPeer is idempotent per peer id: the first call with an
unknown peer inserts it into the peer set, onboards its ledger account with
the given initial balance, and returns exactly one BroadcastNewPeer
re-announcing this process's own id and initial balance; a second call with
the same peer changes no state and returns no commands. -/
theorem claim8_handle_new_peer_idempotent (p : Proc) (np : Identity) (b b2 : Money)
    (h : np ∉ p.peers) :
    (p.handle_new_peer np b).1.peers = np :: p.peers ∧
    (p.handle_new_peer np b).1.bank = p.bank.onboard_account np b ∧
    (p.handle_new_peer np b).2 =
      [Cmd.BroadcastNewPeer p.id ((p.bank.onboard_account np b).initial_balance p.id)] ∧
    (p.handle_new_peer np b).1.handle_new_peer np b2 = ((p.handle_new_peer np b).1, []) := by
  have hmain : p.handle_new_peer np b =
      ({ p with peers := np :: p.peers, bank := p.bank.onboard_account np b },
        [Cmd.BroadcastNewPeer p.id ((p.bank.onboard_account np b).initial_balance p.id)]) := by
    unfold Proc.handle_new_peer
    rw [if_neg h]
  refine ⟨by rw [hmain], by rw [hmain], by rw [hmain], ?_⟩
  rw [hmain]
  show Proc.handle_new_peer _ np b2 = _
  unfold Proc.handle_new_peer
  rw [if_pos (List.mem_cons_self np p.peers)]

/-- Witness for C8: onboarding peer 1 twice on a fresh state. -/
theorem claim8_witness :
    ((Proc.new 0 100).handle_new_peer 1 50).1.handle_new_peer 1 70 =
      (((Proc.new 0 100).handle_new_peer 1 50).1, []) ∧
    ((Proc.new 0 100).handle_new_peer 1 50).2 =
      [Cmd.BroadcastNewPeer 0
        (((Proc.new 0 100).bank.onboard_account 1 50).initial_balance 0)] :=
  ⟨(claim8_handle_new_peer_idempotent (Proc.new 0 100) 1 50 70 (by decide)).2.2.2,
    (claim8_handle_new_peer_idempotent (Proc.new 0 100) 1 50 70 (by decide)).2.2.1⟩

/-- Claim C9: in every reachable state the pending-validation queue is empty
between operations, so during handle_msg the queue that process_msg_queue
drains holds at most the one message that on_delivery just admitted. -/
theorem claim9_queue_empty_between_ops (p : Proc) (h : Reachable p) :
    p.to_validate = [] ∧
    ∀ frm msg, (p.on_delivery frm msg).to_validate.length ≤ 1 := by
  have hq := (reachable_inv h).2
  refine ⟨hq, fun frm msg => ?_⟩
  unfold Proc.on_delivery
  split
  · simp [hq]
  · simp [hq]

/-- Witness for C9 at a concrete reachable state and delivery. -/
theorem claim9_witness :
    (Proc.new 3 7).to_validate = [] ∧
    ((Proc.new 3 7).on_delivery 1
        { op := ⟨1, 0, 2⟩, source_version := ⟨1, 1⟩ }).to_validate.length ≤ 1 :=
  ⟨(claim9_queue_empty_between_ops _ (Reachable.init 3 7)).1,
    (claim9_queue_empty_between_ops _ (Reachable.init 3 7)).2 1
      { op := ⟨1, 0, 2⟩, source_version := ⟨1, 1⟩ }⟩

/-- Claim C10: transfer is deterministic in the process state and stamps only
from the applied-knowledge clock, so two successful transfer calls on the
same state (back-to-back issuance with nothing applied in between) emit
commands carrying the identical version stamp. -/
theorem claim10_transfer_deterministic_stamp (p : Proc) (frm d1 d2 : Identity)
    (a1 a2 : Money) (f1 f2 : Identity) (m1 m2 : Msg) (hid : frm = p.id)
    (h1 : p.transfer frm d1 a1 = [Cmd.BroadcastMsg f1 m1])
    (h2 : p.transfer frm d2 a2 = [Cmd.BroadcastMsg f2 m2]) :
    m1.source_version = m2.source_version ∧
      m1.source_version = ⟨frm, p.seq frm + 1⟩ := by
  have e1 : m1.source_version = ⟨frm, p.seq frm + 1⟩ := by
    unfold Proc.transfer at h1
    rcases hb : p.bank.transfer frm d1 a1 with _ | t
    · rw [hb] at h1
      exact absurd h1 (by simp)
    · rw [hb] at h1
      simp only [List.cons.injEq, and_true, Cmd.BroadcastMsg.injEq] at h1
      obtain ⟨-, hm⟩ := h1
      rw [← hm]
      rfl
  have e2 : m2.source_version = ⟨frm, p.seq frm + 1⟩ := by
    unfold Proc.transfer at h2
    rcases hb : p.bank.transfer frm d2 a2 with _ | t
    · rw [hb] at h2
      exact absurd h2 (by simp)
    · rw [hb] at h2
      simp only [List.cons.injEq, and_true, Cmd.BroadcastMsg.injEq] at h2
      obtain ⟨-, hm⟩ := h2
      rw [← hm]
      rfl
  exact ⟨e1.trans e2.symm, e1⟩

/-- Witness for C10: two back-to-back transfers on a fresh state carry the
same stamp. -/
theorem claim10_witness :
    ({ op := ⟨0, 1, 30⟩, source_version := ⟨0, 1⟩ } : Msg).source_version =
      ({ op := ⟨0, 2, 40⟩, source_version := ⟨0, 1⟩ } : Msg).source_version ∧
    ({ op := ⟨0, 1, 30⟩, source_version := ⟨0, 1⟩ } : Msg).source_version =
      ⟨0, (Proc.new 0 100).seq 0 + 1⟩ :=
  claim10_transfer_deterministic_stamp (Proc.new 0 100) 0 1 2 30 40 0 0
    { op := ⟨0, 1, 30⟩, source_version := ⟨0, 1⟩ }
    { op := ⟨0, 2, 40⟩, source_version := ⟨0, 1⟩ } rfl (by decide) (by decide)

end AT2
